import Mathlib

/-!
Verification of the spldl downloader core (package downloader and package
splunkclient) against its specification.

The Go code is shallowly embedded: goroutine nondeterminism is resolved by
passing the order in which chunks reach the collector as an explicit list,
channel sends become list elements, file writes become an accumulated string,
and external collaborators (the HTTP client, encoding/json) are abstracted as
function parameters.  Go `int` values that are provably non-negative in
context (chunk offsets) are embedded as `Nat`; `ResultCount` stays `Int` with
Go's truncated division `Int.tdiv`.
-/

/-- Model of the Go struct `eventChunk`: one downloaded chunk of events,
carrying its offset (page index) and payload. -/
structure EventChunk where
  offset : Nat
  data : String
deriving DecidableEq, Repr

/-- Read of the collector's Go map `chunkBuf[k]`, modelled on an association
list keyed by offset: the stored payload, if the key is present. -/
def bufLookup (m : List (Nat × String)) (k : Nat) : Option String :=
  (m.find? (fun e => e.1 == k)).map (fun e => e.2)

/-- Write `chunkBuf[k] = chunk` on the association-list model of the Go map:
insert, overwriting any previous binding of the key. -/
def bufInsert (m : List (Nat × String)) (k : Nat) (v : String) : List (Nat × String) :=
  (k, v) :: m.filter (fun e => e.1 != k)

/-- Go `delete(chunkBuf, k)` on the association-list model of the map. -/
def bufDelete (m : List (Nat × String)) (k : Nat) : List (Nat × String) :=
  m.filter (fun e => e.1 != k)

/-- State of `eventChunkCollector` across receives: the holding buffer for
out-of-order chunks, the bytes written to the output file so far, the next
expected offset, and the written-chunk counter. -/
structure CollectorState where
  chunkBuf : List (Nat × String)
  out : String
  nextOffset : Nat
  chunksWritten : Nat
deriving DecidableEq, Repr

/-- The collector's inner drain loop: for as long as `chunkBuf` holds the
chunk at `nextOffset`, delete it from the buffer, write its payload, and
advance `nextOffset` (incrementing `chunksWritten`).  Terminates because each
iteration removes one entry from the buffer. -/
def collectorDrain (st : CollectorState) : CollectorState :=
  match h : bufLookup st.chunkBuf st.nextOffset with
  | some d =>
      collectorDrain
        { chunkBuf := bufDelete st.chunkBuf st.nextOffset
          out := st.out ++ d
          nextOffset := st.nextOffset + 1
          chunksWritten := st.chunksWritten + 1 }
  | none => st
termination_by st.chunkBuf.length
decreasing_by
  simp only [bufDelete]
  rw [List.length_filter_lt_length_iff_exists]
  simp only [bufLookup, Option.map_eq_some'] at h
  obtain ⟨e, hfind, -⟩ := h
  refine ⟨e, List.mem_of_find?_eq_some hfind, ?_⟩
  have he := List.find?_some hfind
  simp only [beq_iff_eq] at he
  simp [he]

/-- One iteration of the collector's receive loop: a chunk whose offset is
the next expected one is written immediately and the expected offset advances;
any other chunk is buffered; then the buffer is drained. -/
def collectorStep (st : CollectorState) (chunk : EventChunk) : CollectorState :=
  let st1 :=
    if chunk.offset = st.nextOffset then
      { st with
          out := st.out ++ chunk.data
          nextOffset := st.nextOffset + 1
          chunksWritten := st.chunksWritten + 1 }
    else
      { st with chunkBuf := bufInsert st.chunkBuf chunk.offset chunk.data }
  collectorDrain st1

/-- The collector's initial state: empty buffer, empty output file,
`nextOffset = 0`, nothing written. -/
def collectorInit : CollectorState :=
  { chunkBuf := [], out := "", nextOffset := 0, chunksWritten := 0 }

/-- Function eventChunkCollector as a fold of `collectorStep` over the chunks in
their arrival order on the channel; the output file's content is the `out`
field of the final state. -/
def eventChunkCollector (chunks : List EventChunk) : CollectorState :=
  chunks.foldl collectorStep collectorInit

/-- The collector including its file-creation step: when `os.Create` fails
(`createOk = false`) the collector logs and returns before writing anything,
so no file content is produced; otherwise the file holds the collector's
output. -/
def eventChunkCollectorRun (createOk : Bool) (chunks : List EventChunk) : Option String :=
  if createOk then some (eventChunkCollector chunks).out else none

/-- Function downloadJobChunks wires workers and collector and returns `nil` on
every path.  First component is the function's returned error (always
`none`, mirroring the unconditional `return nil`); second is the content of
the output file produced by the collector, if one was created. -/
def downloadJobChunks (createOk : Bool) (arrivals : List EventChunk) :
    Option String × Option String :=
  (none, eventChunkCollectorRun createOk arrivals)

/-- Function getEventChunk: one fetch by a worker.  On fetch error the offset is
dropped (nothing is sent to the collector); on success the chunk is emitted
to the channel.  The client call is abstracted as `fetch`. -/
def getEventChunk (fetch : Nat → Option String) (offset : Nat) : Option EventChunk :=
  match fetch offset with
  | some response => some ⟨offset, response⟩
  | none => none

/-- The chunks the worker pool emits for a given plan, in offset order:
exactly the successfully fetched offsets among `0 .. totalChunks - 1`.
Under concurrency the collector sees these in an arbitrary order, so
theorems quantify over permutations of this list. -/
def emittedChunks (fetch : Nat → Option String) (totalChunks : Nat) : List EventChunk :=
  (List.range totalChunks).filterMap (getEventChunk fetch)

/-- Fields of `SearchJobContent` consumed by the downloader.  `DoneProgress`
is a Go `float64`, embedded as a rational. -/
structure SearchJobContent where
  resultCount : Int
  isDone : Bool
  isFailed : Bool
  dispatchState : String
  doneProgress : ℚ
deriving DecidableEq

/-- Classification of the error returns of `DownloadSearchResults`, one
constructor per `fmt.Errorf` site, carrying the data interpolated into the
message. -/
inductive DownloadError where
  | getStatusFailed (msg : String)
  | notComplete (sid dispatchState : String) (doneProgress : ℚ)
  | jobFailed (sid : String)
  | resultLimitExceeded (sid : String)
  | downloadFailed (msg : String)
  | deleteFailed (msg : String)
deriving DecidableEq

/-- Rendering of Go's `%.1f` verb applied to `DoneProgress * 100`, on the
rational embedding of the float: round to the nearest tenth and print with
one decimal digit.  (Binary-float tie behaviour is outside the rational
embedding; no claim depends on ties.) -/
def formatPercent1 (q : ℚ) : String :=
  let n : Int := round (q * 1000)
  (if n < 0 then "-" else "") ++ toString (n.natAbs / 10) ++ "." ++ toString (n.natAbs % 10)

/-- The exact message strings of the `fmt.Errorf` calls in
`DownloadSearchResults`, with `%w`-wrapped causes rendered as their own
message text. -/
def renderError : DownloadError → String
  | .getStatusFailed msg => "failed to get job status: " ++ msg
  | .notComplete sid st p =>
      "job " ++ sid ++ " is not complete (state: " ++ st ++ ", progress: "
        ++ formatPercent1 p ++ "%)"
  | .jobFailed sid => "job " ++ sid ++ " has failed"
  | .resultLimitExceeded sid =>
      "job " ++ sid ++ " has more than 500000 results. Split your search into multiple jobs."
  | .downloadFailed msg => "failed to download job: " ++ msg
  | .deleteFailed msg => "failed to delete job: " ++ msg

/-- The page-count computation of `DownloadSearchResults` line 66:
`totalChunks := (jobStatus.ResultCount / 10000) + 1`, with Go's truncated
integer division. -/
def totalChunksOf (resultCount : Int) : Int :=
  resultCount.tdiv 10000 + 1

/-- Observable outcome of one `DownloadSearchResults` call: the returned
error (`none` = `nil`), the output file's content (`none` when no file was
created), and the chunk offsets dispatched to the worker pool. -/
structure DownloadOutcome where
  err : Option DownloadError
  file : Option String
  offsetsDispatched : List Nat
deriving DecidableEq

/-- Function DownloadSearchResults end to end.  Collaborators are abstracted:
`statusResult` is `GetJobStatus`'s return, `arrivals` is the order in which
successfully fetched chunks reach the collector (nondeterministic under
concurrency, hence a parameter), `createOk` models `os.Create` succeeding,
and `deleteResult` models `DeleteSearchJob` (`none` = success). -/
def downloadSearchResults (sid : String) (deleteWhenDone : Bool)
    (statusResult : Except String SearchJobContent)
    (arrivals : List EventChunk) (createOk : Bool)
    (deleteResult : Option String) : DownloadOutcome :=
  match statusResult with
  | .error e => ⟨some (.getStatusFailed e), none, []⟩
  | .ok jobStatus =>
    if !jobStatus.isDone then
      ⟨some (.notComplete sid jobStatus.dispatchState jobStatus.doneProgress), none, []⟩
    else if jobStatus.isFailed then
      ⟨some (.jobFailed sid), none, []⟩
    else if jobStatus.resultCount > 500000 then
      ⟨some (.resultLimitExceeded sid), none, []⟩
    else
      let offsets := List.range (totalChunksOf jobStatus.resultCount).toNat
      let dl := downloadJobChunks createOk arrivals
      match dl.1 with
      | some msg => ⟨some (.downloadFailed msg), dl.2, offsets⟩
      | none =>
        if deleteWhenDone then
          match deleteResult with
          | some msg => ⟨some (.deleteFailed msg), dl.2, offsets⟩
          | none => ⟨none, dl.2, offsets⟩
        else ⟨none, dl.2, offsets⟩

/-- Function parseCSVResponse (jobs.go): for every chunk after the first, drop the
header row, i.e. everything up to and including the first newline, if one is
present; chunk 0 passes through unchanged.  `strings.IndexByte` is modelled
as a character index: in UTF-8 the byte 0x0A occurs exactly where the
character is a newline, so the resulting string is identical. -/
def parseCSVResponse (response : String) (offset : Nat) : String :=
  if offset > 0 then
    match response.data.findIdx? (fun c => c == '\n') with
    | some idx => ⟨response.data.drop (idx + 1)⟩
    | none => response
  else response

/-- Function parseJSONResponse (jobs.go).  `json.Unmarshal` and `json.Marshal` are
external library calls, abstracted as `decode` (returning the `Results`
array, or `none` on unmarshal error) and `marshal` (`none` on marshal
error, in which case the result is skipped).  On unmarshal error the
function logs and returns the empty string. -/
def parseJSONResponse {α : Type} (decode : String → Option (List α))
    (marshal : α → Option String) (response : String) : String :=
  match decode response with
  | none => ""
  | some results =>
    results.foldl
      (fun sb result =>
        match marshal result with
        | none => sb
        | some line => sb ++ line ++ "\n") ""

/-- Function parseResultsResponse (jobs.go): dispatch on the output mode. -/
def parseResultsResponse {α : Type} (decode : String → Option (List α))
    (marshal : α → Option String) (response : String) (outputMode : String)
    (offset : Nat) : String :=
  match outputMode with
  | "raw" => response
  | "csv" => parseCSVResponse response offset
  | "ndjson" => parseJSONResponse decode marshal response
  | _ => ""

/-- Function GetJobResults (jobs.go): the HTTP GET is abstracted as its result
`getResult`; a transport error is propagated, otherwise the parsed chunk is
returned with a nil error. -/
def getJobResults {α : Type} (decode : String → Option (List α))
    (marshal : α → Option String) (getResult : Except String String)
    (outputMode : String) (offset : Nat) : Except String String :=
  match getResult with
  | .error e => .error e
  | .ok response => .ok (parseResultsResponse decode marshal response outputMode offset)

/-- Substring occurrence: `sub` occurs contiguously inside `s`. -/
def ContainsStr (s sub : String) : Prop :=
  ∃ a b, s = a ++ sub ++ b

/-- The in-order concatenation of the payloads of offsets `0 .. n-1`. -/
def concatData (f : Nat → String) (n : Nat) : String :=
  String.join ((List.range n).map f)

/-- Invariant tying a collector state to the list `seen` of offsets received
so far, given per-offset payloads `f`: every offset below `nextOffset` was
received, `nextOffset` itself was not, the holding buffer holds exactly the
received offsets above `nextOffset`, and the output is the in-order
concatenation of the payloads below `nextOffset`. -/
def CollectorInv (f : Nat → String) (seen : List Nat) (st : CollectorState) : Prop :=
  (∀ i, i < st.nextOffset → i ∈ seen) ∧
  st.nextOffset ∉ seen ∧
  (∀ k, bufLookup st.chunkBuf k
      = if k ∈ seen ∧ st.nextOffset < k then some (f k) else none) ∧
  st.out = concatData f st.nextOffset

theorem string_foldl_append (l : List String) (s : String) :
    l.foldl (fun a b => a ++ b) s = s ++ l.foldl (fun a b => a ++ b) "" := by
  induction l generalizing s with
  | nil => simp [String.append_empty]
  | cons a t ih =>
    simp only [List.foldl_cons]
    rw [ih (s ++ a), ih ("" ++ a), String.empty_append, String.append_assoc]

theorem string_join_cons (a : String) (l : List String) :
    String.join (a :: l) = a ++ String.join l := by
  show l.foldl (fun x b => x ++ b) ("" ++ a) = a ++ l.foldl (fun x b => x ++ b) ""
  rw [String.empty_append, string_foldl_append]

theorem string_join_append (l₁ l₂ : List String) :
    String.join (l₁ ++ l₂) = String.join l₁ ++ String.join l₂ := by
  induction l₁ with
  | nil => simp [String.join, String.empty_append]
  | cons a t ih =>
    rw [List.cons_append, string_join_cons, string_join_cons, ih, String.append_assoc]

theorem concatData_succ (f : Nat → String) (n : Nat) :
    concatData f (n + 1) = concatData f n ++ f n := by
  simp only [concatData, List.range_succ, List.map_append, List.map_cons, List.map_nil,
    string_join_append]
  rw [string_join_cons]
  show _ = _ ++ f n
  rw [show String.join [] = "" from rfl, String.append_empty]

theorem find_filter_ne (m : List (Nat × String)) (k k' : Nat) :
    (m.filter (fun e => e.1 != k)).find? (fun e => e.1 == k')
      = if k' = k then none else m.find? (fun e => e.1 == k') := by
  induction m with
  | nil => simp
  | cons e t ih =>
    by_cases h1 : e.1 = k
    · have hb : (e.1 != k) = false := by simp [h1]
      rw [List.filter_cons, hb]
      simp only [Bool.false_eq_true, if_false]
      rw [ih, List.find?_cons]
      by_cases h : k' = k
      · simp [h]
      · have hne : (e.1 == k') = false := by
          refine beq_eq_false_iff_ne.mpr fun he => h (he.symm.trans h1)
        simp [h, hne]
    · have hb : (e.1 != k) = true := by simp [h1]
      rw [List.filter_cons, hb]
      simp only [if_true]
      rw [List.find?_cons, List.find?_cons]
      by_cases h2 : e.1 = k'
      · have hkk : k' ≠ k := fun hk => h1 (h2.trans hk)
        have hbe : (e.1 == k') = true := beq_iff_eq.mpr h2
        simp [hbe, hkk]
      · have hbe : (e.1 == k') = false := beq_eq_false_iff_ne.mpr h2
        simp only [hbe]
        rw [ih]

theorem bufLookup_insert (m : List (Nat × String)) (k : Nat) (v : String) (k' : Nat) :
    bufLookup (bufInsert m k v) k' = if k' = k then some v else bufLookup m k' := by
  unfold bufLookup bufInsert
  rw [List.find?_cons]
  by_cases h : k' = k
  · subst h; simp
  · have hk : (k == k') = false := by simp [Ne.symm h]
    simp only [hk]
    rw [find_filter_ne]
    simp [h]

theorem bufLookup_delete (m : List (Nat × String)) (k k' : Nat) :
    bufLookup (bufDelete m k) k' = if k' = k then none else bufLookup m k' := by
  unfold bufLookup bufDelete
  rw [find_filter_ne]
  by_cases h : k' = k <;> simp [h]

theorem bufDelete_length_lt {m : List (Nat × String)} {k : Nat} {d : String}
    (h : bufLookup m k = some d) : (bufDelete m k).length < m.length := by
  simp only [bufDelete]
  rw [List.length_filter_lt_length_iff_exists]
  simp only [bufLookup, Option.map_eq_some'] at h
  obtain ⟨e, hfind, -⟩ := h
  refine ⟨e, List.mem_of_find?_eq_some hfind, ?_⟩
  have he := List.find?_some hfind
  simp only [beq_iff_eq] at he
  simp [he]

theorem collectorInv_of_none (f : Nat → String) (seen : List Nat) (st : CollectorState)
    (hlow : ∀ i, i < st.nextOffset → i ∈ seen)
    (hbuf : ∀ k, bufLookup st.chunkBuf k
        = if k ∈ seen ∧ st.nextOffset ≤ k then some (f k) else none)
    (hout : st.out = concatData f st.nextOffset)
    (hnone : bufLookup st.chunkBuf st.nextOffset = none) :
    CollectorInv f seen st := by
  have hns : st.nextOffset ∉ seen := by
    intro hmem
    have h := hbuf st.nextOffset
    rw [hnone] at h
    simp [hmem] at h
  refine ⟨hlow, hns, ?_, hout⟩
  intro k
  rw [hbuf k]
  by_cases h1 : k ∈ seen
  · by_cases h2 : st.nextOffset < k
    · simp [h1, h2, le_of_lt h2]
    · have hk : ¬ (st.nextOffset ≤ k) := by
        intro hle
        rcases lt_or_eq_of_le hle with h | h
        · exact h2 h
        · exact hns (by rwa [h])
      simp [h1, h2, hk]
  · simp [h1]

theorem collectorDrain_spec_aux (f : Nat → String) (seen : List Nat) :
    ∀ n (st : CollectorState), st.chunkBuf.length ≤ n →
      (∀ i, i < st.nextOffset → i ∈ seen) →
      (∀ k, bufLookup st.chunkBuf k
          = if k ∈ seen ∧ st.nextOffset ≤ k then some (f k) else none) →
      st.out = concatData f st.nextOffset →
      CollectorInv f seen (collectorDrain st) := by
  intro n
  induction n with
  | zero =>
    intro st hlen hlow hbuf hout
    have hb : st.chunkBuf = [] := List.eq_nil_of_length_eq_zero (Nat.le_zero.mp hlen)
    have hnone : bufLookup st.chunkBuf st.nextOffset = none := by rw [hb]; rfl
    rw [collectorDrain]
    split
    · rename_i d heq
      rw [heq] at hnone
      exact absurd hnone (by simp)
    · exact collectorInv_of_none f seen st hlow hbuf hout hnone
  | succ n ih =>
    intro st hlen hlow hbuf hout
    rw [collectorDrain]
    split
    · rename_i d heq
      have hcond : st.nextOffset ∈ seen ∧ d = f st.nextOffset := by
        have h := hbuf st.nextOffset
        rw [heq] at h
        by_cases hm : st.nextOffset ∈ seen
        · refine ⟨hm, ?_⟩
          rw [if_pos ⟨hm, le_refl _⟩] at h
          exact Option.some_injective _ h
        · rw [if_neg (fun hc => hm hc.1)] at h
          exact absurd h (by simp)
      obtain ⟨hmem, hd⟩ := hcond
      apply ih
      · have := bufDelete_length_lt heq
        simpa using Nat.le_of_lt_succ (Nat.lt_of_lt_of_le this hlen)
      · intro i hi
        rcases Nat.lt_succ_iff_lt_or_eq.mp hi with h | h
        · exact hlow i h
        · rwa [h]
      · intro k
        show bufLookup (bufDelete st.chunkBuf st.nextOffset) k = _
        rw [bufLookup_delete]
        by_cases hk : k = st.nextOffset
        · rw [if_pos hk]
          have hneg : ¬ (k ∈ seen ∧ st.nextOffset + 1 ≤ k) := by
            rintro ⟨-, hle⟩
            omega
          rw [if_neg hneg]
        · rw [if_neg hk, hbuf k]
          by_cases h1 : k ∈ seen
          · by_cases h2 : st.nextOffset + 1 ≤ k
            · have : st.nextOffset ≤ k := by omega
              simp [h1, h2, this]
            · have : ¬ (st.nextOffset ≤ k) := by omega
              simp [h1, h2, this]
          · simp [h1]
      · show st.out ++ d = concatData f (st.nextOffset + 1)
        rw [concatData_succ, hout, hd]
    · rename_i heq
      exact collectorInv_of_none f seen st hlow hbuf hout heq

theorem collectorDrain_spec (f : Nat → String) (seen : List Nat) (st : CollectorState)
    (hlow : ∀ i, i < st.nextOffset → i ∈ seen)
    (hbuf : ∀ k, bufLookup st.chunkBuf k
        = if k ∈ seen ∧ st.nextOffset ≤ k then some (f k) else none)
    (hout : st.out = concatData f st.nextOffset) :
    CollectorInv f seen (collectorDrain st) :=
  collectorDrain_spec_aux f seen st.chunkBuf.length st le_rfl hlow hbuf hout

theorem collectorStep_eq (st : CollectorState) (c : EventChunk) :
    collectorStep st c
      = collectorDrain
          (if c.offset = st.nextOffset then
            { st with
                out := st.out ++ c.data
                nextOffset := st.nextOffset + 1
                chunksWritten := st.chunksWritten + 1 }
          else
            { st with chunkBuf := bufInsert st.chunkBuf c.offset c.data }) := by
  unfold collectorStep
  split <;> rfl

theorem collectorStep_inv (f : Nat → String) (seen : List Nat) (st : CollectorState)
    (o : Nat) (ho : o ∉ seen) (hinv : CollectorInv f seen st) :
    CollectorInv f (seen ++ [o]) (collectorStep st ⟨o, f o⟩) := by
  obtain ⟨hlow, hns, hbuf, hout⟩ := hinv
  rw [collectorStep_eq]
  by_cases hoe : o = st.nextOffset
  · rw [if_pos hoe]
    subst hoe
    apply collectorDrain_spec
    · intro i hi
      rcases Nat.lt_succ_iff_lt_or_eq.mp hi with h | h
      · exact List.mem_append_left _ (hlow i h)
      · exact List.mem_append_right _ (by simp [h])
    · intro k
      show bufLookup st.chunkBuf k = _
      rw [hbuf k]
      by_cases h1 : k ∈ seen ∧ st.nextOffset < k
      · rw [if_pos h1, if_pos ⟨List.mem_append_left _ h1.1, h1.2⟩]
      · have hneg : ¬ (k ∈ seen ++ [st.nextOffset] ∧ st.nextOffset + 1 ≤ k) := by
          rintro ⟨hm, hle⟩
          rcases List.mem_append.mp hm with h | h
          · exact h1 ⟨h, by omega⟩
          · simp at h
            omega
        rw [if_neg h1, if_neg hneg]
    · show st.out ++ f st.nextOffset = _
      rw [concatData_succ, hout]
  · rw [if_neg hoe]
    have hlt : st.nextOffset < o := by
      rcases Nat.lt_trichotomy o st.nextOffset with h | h | h
      · exact absurd (hlow o h) ho
      · exact absurd h hoe
      · exact h
    apply collectorDrain_spec
    · intro i hi
      exact List.mem_append_left _ (hlow i hi)
    · intro k
      show bufLookup (bufInsert st.chunkBuf o (f o)) k = _
      rw [bufLookup_insert]
      by_cases hk : k = o
      · subst hk
        rw [if_pos rfl, if_pos ⟨List.mem_append_right _ (by simp), le_of_lt hlt⟩]
      · rw [if_neg hk, hbuf k]
        by_cases h1 : k ∈ seen ∧ st.nextOffset < k
        · rw [if_pos h1, if_pos ⟨List.mem_append_left _ h1.1, le_of_lt h1.2⟩]
        · have hneg : ¬ (k ∈ seen ++ [o] ∧ st.nextOffset ≤ k) := by
            rintro ⟨hm, hle⟩
            rcases List.mem_append.mp hm with h | h
            · rcases lt_or_eq_of_le hle with h2 | h2
              · exact h1 ⟨h, h2⟩
              · exact hns (by rwa [h2])
            · simp at h
              exact hk h
          rw [if_neg h1, if_neg hneg]
    · exact hout

theorem eventChunkCollector_inv (f : Nat → String) :
    ∀ offs : List Nat, offs.Nodup →
      CollectorInv f offs (eventChunkCollector (offs.map (fun i => ⟨i, f i⟩))) := by
  intro offs
  induction offs using List.reverseRecOn with
  | nil =>
    intro _
    show CollectorInv f [] collectorInit
    refine ⟨?_, by simp [collectorInit], ?_, rfl⟩
    · intro i hi
      simp [collectorInit] at hi
    · intro k
      rw [if_neg (by simp)]
      rfl
  | append_singleton l o ih =>
    intro hnd
    rw [List.nodup_append] at hnd
    obtain ⟨hl, -, hdisj⟩ := hnd
    have ho : o ∉ l := fun hmem => hdisj hmem (by simp)
    show CollectorInv f (l ++ [o])
      ((List.map (fun i => EventChunk.mk i (f i)) (l ++ [o])).foldl collectorStep collectorInit)
    rw [List.map_append, List.foldl_append]
    exact collectorStep_inv f l _ o ho (ih hl)

/-- C1: for every total page count `N ≥ 1` and every arrival order of the
`N` event chunks carrying offsets `0 .. N-1`, each exactly once, the ordered
collector writes exactly the concatenation of the chunks' payloads in
ascending offset order — the output is independent of the arrival order. -/
theorem eventChunkCollector_writes_ascending (N : Nat) (hN : 1 ≤ N)
    (f : Nat → String) (offs : List Nat) (hperm : offs.Perm (List.range N)) :
    (eventChunkCollector (offs.map (fun i => ⟨i, f i⟩))).out
      = String.join ((List.range N).map f) := by
  have hnd : offs.Nodup := hperm.nodup_iff.mpr (List.nodup_range N)
  obtain ⟨hlow, hnext, hbuf, hout⟩ := eventChunkCollector_inv f offs hnd
  have hmem : ∀ i : Nat, i ∈ offs ↔ i < N := fun i => by
    rw [hperm.mem_iff, List.mem_range]
  have hN' : (eventChunkCollector (offs.map (fun i => ⟨i, f i⟩))).nextOffset = N := by
    have h1 : ¬ (eventChunkCollector (offs.map (fun i => ⟨i, f i⟩))).nextOffset < N :=
      fun h => hnext ((hmem _).mpr h)
    have h2 : ¬ N < (eventChunkCollector (offs.map (fun i => ⟨i, f i⟩))).nextOffset :=
      fun h => absurd ((hmem N).mp (hlow N h)) (lt_irrefl N)
    omega
  rw [hout, hN']
  rfl

theorem eventChunkCollector_writes_ascending_witness :
    (eventChunkCollector ([2, 0, 1].map
        (fun i => ⟨i, (["alpha,", "beta,", "gamma"].getD i "")⟩))).out
      = String.join ((List.range 3).map (fun i => (["alpha,", "beta,", "gamma"].getD i ""))) :=
  eventChunkCollector_writes_ascending 3 (by decide)
    (fun i => (["alpha,", "beta,", "gamma"].getD i "")) [2, 0, 1] (by decide)

/-- C8: invariant of eventChunkCollector under at-most-once delivery (the
received offsets `offs` are pairwise distinct): after processing the received
chunks, the bytes written so far are exactly the concatenation of the
payloads of offsets `0 .. nextOffset - 1`, and every key in the holding
buffer `chunkBuf` is strictly greater than `nextOffset`. -/
theorem eventChunkCollector_loop_invariant (f : Nat → String) (offs : List Nat)
    (hnd : offs.Nodup) :
    (eventChunkCollector (offs.map (fun i => ⟨i, f i⟩))).out
      = concatData f (eventChunkCollector (offs.map (fun i => ⟨i, f i⟩))).nextOffset
    ∧ ∀ k v, (k, v) ∈ (eventChunkCollector (offs.map (fun i => ⟨i, f i⟩))).chunkBuf
        → (eventChunkCollector (offs.map (fun i => ⟨i, f i⟩))).nextOffset < k := by
  obtain ⟨hlow, hnext, hbuf, hout⟩ := eventChunkCollector_inv f offs hnd
  refine ⟨hout, ?_⟩
  intro k v hmem
  by_contra hcon
  have hnone : bufLookup (eventChunkCollector (offs.map (fun i => ⟨i, f i⟩))).chunkBuf k
      = none := by
    rw [hbuf k]
    exact if_neg (fun hc => hcon hc.2)
  simp only [bufLookup, Option.map_eq_none'] at hnone
  rw [List.find?_eq_none] at hnone
  exact absurd (by simp : (((k, v) : Nat × String).1 == k) = true) (hnone (k, v) hmem)

theorem eventChunkCollector_loop_invariant_witness :
    (eventChunkCollector ([1, 3].map (fun i => ⟨i, toString i⟩))).out
      = concatData (fun i => toString i)
          (eventChunkCollector ([1, 3].map (fun i => ⟨i, toString i⟩))).nextOffset
    ∧ ∀ k v, (k, v) ∈ (eventChunkCollector ([1, 3].map (fun i => ⟨i, toString i⟩))).chunkBuf
        → (eventChunkCollector ([1, 3].map (fun i => ⟨i, toString i⟩))).nextOffset < k :=
  eventChunkCollector_loop_invariant (fun i => toString i) [1, 3] (by decide)

/-- C2 evidence: with two total pages (result count 10000) and page 1's
fetch failing, the worker pool emits only page 0, and DownloadSearchResults
returns nil together with a truncated output file: the outcome carries no
error of any kind, so no ReassemblyIncomplete (or any other) diagnostic is
surfaced for the missing page. -/
theorem download_truncated_without_diagnostic :
    emittedChunks (fun o => if o = 0 then some "page0" else none) 2
        = [⟨0, "page0"⟩]
    ∧ downloadSearchResults "sid1" false (.ok ⟨10000, true, false, "DONE", 1⟩)
        [⟨0, "page0"⟩] true none
      = ⟨none, some "page0", [0, 1]⟩ := by
  constructor
  · rfl
  · have h1 : eventChunkCollector [⟨0, "page0"⟩] = ⟨[], "page0", 1, 1⟩ := by
      show collectorDrain ⟨[], "" ++ "page0", 1, 1⟩ = ⟨[], "page0", 1, 1⟩
      rw [collectorDrain]
      split
      · rename_i d heq
        simp [bufLookup] at heq
      · decide
    have h2 : downloadSearchResults "sid1" false
        (.ok ⟨10000, true, false, "DONE", 1⟩) [⟨0, "page0"⟩] true none
        = ⟨none, some (eventChunkCollector [⟨0, "page0"⟩]).out, [0, 1]⟩ := rfl
    rw [h2, h1]

/-- C3 counterexample: delete-on-completion configured, the download phase
completed, the delete request fails — DownloadSearchResults returns the
wrapped delete error, so the download is not reported as successful. -/
theorem delete_failure_changes_success :
    (downloadSearchResults "sid1" true (.ok ⟨0, true, false, "DONE", 1⟩)
        [⟨0, "x"⟩] true (some "HTTP 503: Service Unavailable")).err
      = some (.deleteFailed "HTTP 503: Service Unavailable")
    ∧ (downloadSearchResults "sid1" true (.ok ⟨0, true, false, "DONE", 1⟩)
        [⟨0, "x"⟩] true (some "HTTP 503: Service Unavailable")).err ≠ none := by
  constructor
  · decide
  · decide

/-- C3 amended: when delete-on-completion is configured, the readiness gate
passed and the page download ran (downloadJobChunks returned nil), a failure
of the delete-job request makes DownloadSearchResults return the
`failed to delete job` error: the completed download is reported as failed,
not as successful. -/
theorem delete_failure_propagates (sid : String) (st : SearchJobContent)
    (arrivals : List EventChunk) (createOk : Bool) (msg : String)
    (hdone : st.isDone = true) (hfail : st.isFailed = false)
    (hrc : st.resultCount ≤ 500000) :
    (downloadSearchResults sid true (.ok st) arrivals createOk (some msg)).err
      = some (.deleteFailed msg)
    ∧ renderError (.deleteFailed msg) = "failed to delete job: " ++ msg := by
  refine ⟨?_, rfl⟩
  simp [downloadSearchResults, hdone, hfail, not_lt.mpr hrc, downloadJobChunks]

theorem delete_failure_propagates_witness :
    (downloadSearchResults "s" true (.ok ⟨42, true, false, "DONE", 1⟩)
        [⟨0, "x"⟩] true (some "boom")).err = some (.deleteFailed "boom")
    ∧ renderError (.deleteFailed "boom") = "failed to delete job: " ++ "boom" :=
  delete_failure_propagates "s" ⟨42, true, false, "DONE", 1⟩ [⟨0, "x"⟩] true "boom"
    rfl rfl (by decide)

/-- C9: when creating the output file fails, the collector produces nothing,
yet downloadJobChunks returns nil and DownloadSearchResults (with no delete
configured) also returns nil: the download is reported as successful even
though no output file was produced. -/
theorem create_failure_reports_success (sid : String) (st : SearchJobContent)
    (arrivals : List EventChunk)
    (hdone : st.isDone = true) (hfail : st.isFailed = false)
    (hrc : st.resultCount ≤ 500000) :
    eventChunkCollectorRun false arrivals = none
    ∧ downloadJobChunks false arrivals = (none, none)
    ∧ (downloadSearchResults sid false (.ok st) arrivals false none).err = none
    ∧ (downloadSearchResults sid false (.ok st) arrivals false none).file = none := by
  refine ⟨rfl, rfl, ?_, ?_⟩
  · simp [downloadSearchResults, hdone, hfail, not_lt.mpr hrc, downloadJobChunks,
      eventChunkCollectorRun]
  · simp [downloadSearchResults, hdone, hfail, not_lt.mpr hrc, downloadJobChunks,
      eventChunkCollectorRun]

theorem create_failure_reports_success_witness :
    eventChunkCollectorRun false [⟨0, "x"⟩] = none
    ∧ downloadJobChunks false [⟨0, "x"⟩] = (none, none)
    ∧ (downloadSearchResults "s" false (.ok ⟨7, true, false, "DONE", 1⟩)
        [⟨0, "x"⟩] false none).err = none
    ∧ (downloadSearchResults "s" false (.ok ⟨7, true, false, "DONE", 1⟩)
        [⟨0, "x"⟩] false none).file = none :=
  create_failure_reports_success "s" ⟨7, true, false, "DONE", 1⟩ [⟨0, "x"⟩]
    rfl rfl (by decide)

/-- C10: in ndjson mode, a page whose body fails to unmarshal makes
GetJobResults return the empty string with a nil error: the malformed page
contributes zero bytes and no error reaches the caller. -/
theorem malformed_json_page_dropped {α : Type} (decode : String → Option (List α))
    (marshal : α → Option String) (response : String) (offset : Nat)
    (hbad : decode response = none) :
    getJobResults decode marshal (.ok response) "ndjson" offset = .ok "" := by
  simp [getJobResults, parseResultsResponse, parseJSONResponse, hbad]

theorem malformed_json_page_dropped_witness :
    getJobResults (fun _ => (none : Option (List Unit))) (fun _ => none)
      (.ok "not valid json") "ndjson" 3 = .ok "" :=
  malformed_json_page_dropped (fun _ => (none : Option (List Unit))) (fun _ => none)
    "not valid json" 3 rfl

theorem containsStr_intro (x y z s : String) (h : x ++ (y ++ z) = s) :
    ContainsStr s y :=
  ⟨x, z, ((String.append_assoc x y z).trans h).symm⟩

theorem offsets_dispatched_eq (sid : String) (dwd : Bool) (st : SearchJobContent)
    (arrivals : List EventChunk) (createOk : Bool) (deleteResult : Option String)
    (hdone : st.isDone = true) (hfail : st.isFailed = false)
    (hrc : ¬ 500000 < st.resultCount) :
    (downloadSearchResults sid dwd (.ok st) arrivals createOk deleteResult).offsetsDispatched
      = List.range (totalChunksOf st.resultCount).toNat := by
  cases deleteResult <;> cases dwd <;>
    simp [downloadSearchResults, hdone, hfail, hrc, downloadJobChunks]

/-- C4: with the job done and not failed, the readiness check fails with
ResultLimitExceeded exactly when the result count exceeds 500000 — a count
of exactly 500000 passes the gate and the page plan is computed — on such a
failure no fetch is attempted and no file is produced, and the error message
states the 500000 ceiling and instructs the caller to split the search. -/
theorem resultLimit_gate (sid : String) (dwd : Bool) (st : SearchJobContent)
    (arrivals : List EventChunk) (createOk : Bool) (deleteResult : Option String)
    (hdone : st.isDone = true) (hfail : st.isFailed = false) :
    ((downloadSearchResults sid dwd (.ok st) arrivals createOk deleteResult).err
        = some (.resultLimitExceeded sid) ↔ 500000 < st.resultCount)
    ∧ (500000 < st.resultCount →
        (downloadSearchResults sid dwd (.ok st) arrivals createOk deleteResult).offsetsDispatched
            = []
        ∧ (downloadSearchResults sid dwd (.ok st) arrivals createOk deleteResult).file = none)
    ∧ (¬ 500000 < st.resultCount →
        (downloadSearchResults sid dwd (.ok st) arrivals createOk deleteResult).offsetsDispatched
          = List.range (totalChunksOf st.resultCount).toNat)
    ∧ ContainsStr (renderError (.resultLimitExceeded sid)) "500000"
    ∧ ContainsStr (renderError (.resultLimitExceeded sid))
        "Split your search into multiple jobs." := by
  have hc1 : ContainsStr (renderError (.resultLimitExceeded sid)) "500000" := by
    refine containsStr_intro ("job " ++ sid ++ " has more than ") "500000"
      " results. Split your search into multiple jobs." _ ?_
    simp only [renderError, String.append_assoc]
    rfl
  have hc2 : ContainsStr (renderError (.resultLimitExceeded sid))
      "Split your search into multiple jobs." := by
    refine containsStr_intro ("job " ++ sid ++ " has more than 500000 results. ")
      "Split your search into multiple jobs." "" _ ?_
    rw [String.append_empty]
    simp only [renderError, String.append_assoc]
    rfl
  by_cases hrc : 500000 < st.resultCount
  · have hout : downloadSearchResults sid dwd (.ok st) arrivals createOk deleteResult
        = ⟨some (.resultLimitExceeded sid), none, []⟩ := by
      simp [downloadSearchResults, hdone, hfail, hrc]
    exact ⟨by rw [hout]; exact ⟨fun _ => hrc, fun _ => rfl⟩,
      fun _ => by rw [hout]; exact ⟨rfl, rfl⟩,
      fun h => absurd hrc h, hc1, hc2⟩
  · have herr : (downloadSearchResults sid dwd (.ok st) arrivals createOk deleteResult).err
        ≠ some (.resultLimitExceeded sid) := by
      cases deleteResult <;> cases dwd <;>
        simp [downloadSearchResults, hdone, hfail, hrc, downloadJobChunks]
    exact ⟨⟨fun h => absurd h herr, fun h => absurd h hrc⟩,
      fun h => absurd h hrc,
      fun _ => offsets_dispatched_eq sid dwd st arrivals createOk deleteResult hdone hfail hrc,
      hc1, hc2⟩

theorem resultLimit_gate_witness :
    ((downloadSearchResults "s" false (.ok ⟨500001, true, false, "DONE", 1⟩) [] true none).err
        = some (.resultLimitExceeded "s") ↔ (500000 : Int) < 500001)
    ∧ ((500000 : Int) < 500001 →
        (downloadSearchResults "s" false (.ok ⟨500001, true, false, "DONE", 1⟩) []
            true none).offsetsDispatched = []
        ∧ (downloadSearchResults "s" false (.ok ⟨500001, true, false, "DONE", 1⟩) []
            true none).file = none)
    ∧ (¬ (500000 : Int) < 500001 →
        (downloadSearchResults "s" false (.ok ⟨500001, true, false, "DONE", 1⟩) []
            true none).offsetsDispatched = List.range (totalChunksOf 500001).toNat)
    ∧ ContainsStr (renderError (.resultLimitExceeded "s")) "500000"
    ∧ ContainsStr (renderError (.resultLimitExceeded "s"))
        "Split your search into multiple jobs." :=
  resultLimit_gate "s" false ⟨500001, true, false, "DONE", 1⟩ [] true none rfl rfl

/-- C6: a job with is-done false fails with NotComplete — the whole outcome
is exactly that error, nothing dispatched, no file — and the message contains
the dispatch state and the done-progress rendered as a percentage; a job with
is-done true and is-failed true fails with JobFailed, again before any fetch. -/
theorem preflight_gate_errors (sid : String) (dwd : Bool) (st : SearchJobContent)
    (arrivals : List EventChunk) (createOk : Bool) (deleteResult : Option String) :
    (st.isDone = false →
        downloadSearchResults sid dwd (.ok st) arrivals createOk deleteResult
          = ⟨some (.notComplete sid st.dispatchState st.doneProgress), none, []⟩
        ∧ ContainsStr (renderError (.notComplete sid st.dispatchState st.doneProgress))
            st.dispatchState
        ∧ ContainsStr (renderError (.notComplete sid st.dispatchState st.doneProgress))
            (formatPercent1 st.doneProgress ++ "%"))
    ∧ (st.isDone = true → st.isFailed = true →
        downloadSearchResults sid dwd (.ok st) arrivals createOk deleteResult
          = ⟨some (.jobFailed sid), none, []⟩) := by
  constructor
  · intro h
    refine ⟨by simp [downloadSearchResults, h], ?_, ?_⟩
    · refine containsStr_intro ("job " ++ sid ++ " is not complete (state: ")
        st.dispatchState
        (", progress: " ++ (formatPercent1 st.doneProgress ++ "%)")) _ ?_
      simp only [renderError, String.append_assoc]
    · have hps : ("%" : String) ++ ")" = "%)" := rfl
      refine containsStr_intro
        ("job " ++ sid ++ " is not complete (state: " ++ st.dispatchState ++ ", progress: ")
        (formatPercent1 st.doneProgress ++ "%") ")" _ ?_
      simp only [renderError, String.append_assoc, hps]
  · intro h1 h2
    simp [downloadSearchResults, h1, h2]

theorem preflight_gate_errors_witness :
    downloadSearchResults "s" false (.ok ⟨100, false, false, "RUNNING", 1/2⟩) [] true none
      = ⟨some (.notComplete "s" "RUNNING" (1/2)), none, []⟩
    ∧ ContainsStr (renderError (.notComplete "s" "RUNNING" (1/2))) "RUNNING"
    ∧ ContainsStr (renderError (.notComplete "s" "RUNNING" (1/2)))
        (formatPercent1 (1/2) ++ "%") :=
  (preflight_gate_errors "s" false ⟨100, false, false, "RUNNING", 1/2⟩ [] true none).1 rfl

/-- C5: for a non-negative result count passing the gate, the number of
pages planned (offsets dispatched to workers) is floor(count / 10000) + 1 —
Go's truncated division agreeing with floor division on non-negative input —
which is at least 1 even when the count is 0 or an exact multiple of the
page size. -/
theorem totalChunks_planned (sid : String) (dwd : Bool) (st : SearchJobContent)
    (arrivals : List EventChunk) (createOk : Bool) (deleteResult : Option String)
    (hdone : st.isDone = true) (hfail : st.isFailed = false)
    (h0 : 0 ≤ st.resultCount) (hle : st.resultCount ≤ 500000) :
    totalChunksOf st.resultCount = st.resultCount.fdiv 10000 + 1
    ∧ (downloadSearchResults sid dwd (.ok st) arrivals createOk deleteResult).offsetsDispatched.length
        = st.resultCount.toNat / 10000 + 1
    ∧ 1 ≤ (downloadSearchResults sid dwd (.ok st) arrivals createOk
        deleteResult).offsetsDispatched.length := by
  obtain ⟨n, hn⟩ : ∃ n : ℕ, st.resultCount = (n : ℤ) :=
    ⟨st.resultCount.toNat, (Int.toNat_of_nonneg h0).symm⟩
  have h1 : ((n : ℤ)).tdiv 10000 = ((n / 10000 : ℕ) : ℤ) := rfl
  have h2 : ((n : ℤ)).fdiv 10000 = ((n / 10000 : ℕ) : ℤ) := by
    exact_mod_cast (Int.ofNat_fdiv n 10000).symm
  have hlen : (downloadSearchResults sid dwd (.ok st) arrivals createOk
      deleteResult).offsetsDispatched.length = st.resultCount.toNat / 10000 + 1 := by
    rw [offsets_dispatched_eq sid dwd st arrivals createOk deleteResult hdone hfail
      (not_lt.mpr hle)]
    rw [List.length_range, hn]
    show (((n : ℤ)).tdiv 10000 + 1).toNat = ((n : ℤ)).toNat / 10000 + 1
    rw [h1]
    omega
  refine ⟨?_, hlen, ?_⟩
  · rw [hn]
    show ((n : ℤ)).tdiv 10000 + 1 = ((n : ℤ)).fdiv 10000 + 1
    rw [h1, h2]
  · rw [hlen]
    omega

theorem totalChunks_planned_witness :
    totalChunksOf (0 : Int) = (0 : Int).fdiv 10000 + 1
    ∧ (downloadSearchResults "s" false (.ok ⟨0, true, false, "DONE", 1⟩) []
        true none).offsetsDispatched.length = (0 : Int).toNat / 10000 + 1
    ∧ 1 ≤ (downloadSearchResults "s" false (.ok ⟨0, true, false, "DONE", 1⟩) []
        true none).offsetsDispatched.length :=
  totalChunks_planned "s" false ⟨0, true, false, "DONE", 1⟩ [] true none rfl rfl
    (by decide) (by decide)

theorem findIdx_newline_append :
    ∀ (a : List Char), ('\n' : Char) ∉ a → ∀ (b : List Char) (i : Nat),
      List.findIdx? (fun c => c == '\n') (a ++ '\n' :: b) i = some (i + a.length) := by
  intro a
  induction a with
  | nil =>
    intro _ b i
    rw [List.nil_append, List.findIdx?_cons, if_pos (by simp)]
    simp
  | cons c t ih =>
    intro ha b i
    have hc : (c == '\n') = false :=
      beq_eq_false_iff_ne.mpr (fun hcc => ha (by simp [hcc]))
    rw [List.cons_append, List.findIdx?_cons, if_neg (by simp [hc])]
    rw [ih (fun hm => ha (List.mem_cons_of_mem _ hm)) b (i + 1)]
    congr 1
    simp
    omega

theorem parseCSVResponse_strip (header : String) (b : String)
    (hh : ('\n' : Char) ∉ header.data) (i : Nat) (hi : 0 < i) :
    parseCSVResponse (header ++ "\n" ++ b) i = b := by
  unfold parseCSVResponse
  rw [if_pos hi]
  have hdata : (header ++ "\n" ++ b).data = header.data ++ '\n' :: b.data := by
    simp [String.data_append]
  rw [hdata, findIdx_newline_append header.data hh b.data 0]
  have hsplit : header.data ++ '\n' :: b.data = (header.data ++ ['\n']) ++ b.data := by
    simp
  rw [Nat.zero_add, hsplit]
  have hdrop : ((header.data ++ ['\n']) ++ b.data).drop (header.data.length + 1) = b.data := by
    have hlen : (header.data ++ ['\n']).length = header.data.length + 1 := by simp
    rw [← hlen, List.drop_left]
  show String.mk (((header.data ++ ['\n']) ++ b.data).drop (header.data.length + 1)) = b
  rw [hdrop]

theorem csv_reassembly_tail (header : String) (hh : ('\n' : Char) ∉ header.data) :
    ∀ (rows : List String) (k : Nat), 1 ≤ k →
      ((rows.enumFrom k).map (fun p => parseCSVResponse (header ++ "\n" ++ p.2) p.1)) = rows := by
  intro rows
  induction rows with
  | nil => intro k _; rfl
  | cons r t ih =>
    intro k hk
    rw [List.enumFrom_cons, List.map_cons]
    show parseCSVResponse (header ++ "\n" ++ r) k :: _ = _
    rw [parseCSVResponse_strip header r hh k hk, ih (k + 1) (by omega)]

/-- C7: in csv mode the decoder passes page 0 through unchanged and strips
exactly the first line (up to and including the first newline) from every
page of positive index, so that when the upstream repeats the same
newline-free header on every page, concatenating the decoded pages in
ascending index order reconstructs the header plus all rows byte-for-byte. -/
theorem csv_header_strip_reassembly (header : String) (rows : List String)
    (hh : ('\n' : Char) ∉ header.data) (hne : rows ≠ []) :
    (∀ p : String, parseCSVResponse p 0 = p)
    ∧ (∀ i : Nat, 0 < i → ∀ b : String,
        parseCSVResponse (header ++ "\n" ++ b) i = b)
    ∧ String.join ((rows.enum).map
        (fun p => parseCSVResponse (header ++ "\n" ++ p.2) p.1))
      = header ++ "\n" ++ String.join rows := by
  refine ⟨fun p => by simp [parseCSVResponse],
    fun i hi b => parseCSVResponse_strip header b hh i hi, ?_⟩
  obtain ⟨r, t, rfl⟩ : ∃ r t, rows = r :: t := by
    cases rows with
    | nil => exact absurd rfl hne
    | cons r t => exact ⟨r, t, rfl⟩
  rw [List.enum_cons, List.map_cons]
  show String.join (parseCSVResponse (header ++ "\n" ++ r) 0 :: _) = _
  rw [show parseCSVResponse (header ++ "\n" ++ r) 0 = header ++ "\n" ++ r from by
    simp [parseCSVResponse]]
  rw [csv_reassembly_tail header hh t 1 le_rfl, string_join_cons, string_join_cons,
    String.append_assoc (header ++ "\n") r (String.join t)]

theorem csv_header_strip_reassembly_witness :
    (∀ p : String, parseCSVResponse p 0 = p)
    ∧ (∀ i : Nat, 0 < i → ∀ b : String,
        parseCSVResponse ("h1,h2" ++ "\n" ++ b) i = b)
    ∧ String.join ((["a,b\nc,d\n", "e,f\n"].enum).map
        (fun p => parseCSVResponse ("h1,h2" ++ "\n" ++ p.2) p.1))
      = "h1,h2" ++ "\n" ++ String.join ["a,b\nc,d\n", "e,f\n"] :=
  csv_header_strip_reassembly "h1,h2" ["a,b\nc,d\n", "e,f\n"] (by decide) (by decide)
